import Mathlib

/-!
Shallow embedding of the parsing core of `src/main.jsx` (night-report-dashboard).
Strings are modelled as Lean `String` / `List Char`; each JavaScript regex is
hand-translated into an executable character-list matcher with the same
(backtracking) semantics on the character classes it uses.  JS `\s`, `\d`, `\w`
are the usual ASCII classes (`\s` additionally matches NBSP, which we include);
`String.prototype.toLowerCase` only ever interacts with ASCII letters in the
patterns at issue, so it is modelled by ASCII `Char.toLower`.
-/

namespace NightReport

/-- JS `\s` class (the whitespace characters that can actually occur here:
space, tab, LF, CR, VT, FF, NBSP). -/
def isSpaceJS (c : Char) : Bool :=
  c == ' ' || c == '\t' || c == '\n' || c == '\r' ||
  c == '\x0b' || c == '\x0c' || c == ' '

/-- JS `\d` class. -/
def isDigitJS (c : Char) : Bool := c.isDigit

/-- JS `\w` class: `[A-Za-z0-9_]`. -/
def isWordJS (c : Char) : Bool := c.isAlpha || c.isDigit || c == '_'

/-- JS `String.prototype.trim` on a character list. -/
def jsTrimL (l : List Char) : List Char :=
  ((l.dropWhile isSpaceJS).reverse.dropWhile isSpaceJS).reverse

/-- JS `String.prototype.trim`. -/
def jsTrim (s : String) : String := String.mk (jsTrimL s.data)

/-- ASCII lower-casing of a string (model of JS `toLowerCase` for the
ASCII-only patterns used by the status classifier). -/
def lowerStr (s : String) : String := String.mk (s.data.map Char.toLower)

/-- Split on `'\n'`, keeping empty pieces — JS `str.split("\n")`. -/
def splitLinesL : List Char → List (List Char)
  | [] => [[]]
  | '\n' :: t => [] :: splitLinesL t
  | c :: t =>
    match splitLinesL t with
    | [] => [[c]]
    | h :: r => (c :: h) :: r

/-- Remove every `'\r'` — JS `str.replace(/\r/g, "")`. -/
def stripCR (l : List Char) : List Char := l.filter (fun c => c ≠ '\r')

/-- Case-insensitive test that `p` (given lower-case) starts the list `l`. -/
def ciIsPrefixL (p : List Char) (l : List Char) : Bool :=
  (l.take p.length).map Char.toLower == p

/-- Substring containment (needle `sub` occurs in `l`). -/
def containsL (sub : List Char) : List Char → Bool
  | [] => sub.isEmpty
  | c :: t => sub.isPrefixOf (c :: t) || containsL sub t

/-- The character after a `tok`-prefix of `l` is a word boundary
(end of text or a non-word character). -/
def boundaryAfter (tok : List Char) (l : List Char) : Bool :=
  match l.drop tok.length with
  | [] => true
  | c :: _ => !isWordJS c

/-- Regex `/\btok/`: `tok` occurs at a position preceded by a word boundary.
`prevWord` says whether the character just before the current position is a
word character (`false` at the start of the text). -/
def hasTokenLBAux (tok : List Char) (prevWord : Bool) : List Char → Bool
  | [] => false
  | c :: t =>
    (!prevWord && tok.isPrefixOf (c :: t)) || hasTokenLBAux tok (isWordJS c) t

def hasTokenLB (tok : List Char) (l : List Char) : Bool :=
  hasTokenLBAux tok false l

/-- Regex `/\btok\b/`: both sides at word boundaries. -/
def hasTokenWBAux (tok : List Char) (prevWord : Bool) : List Char → Bool
  | [] => false
  | c :: t =>
    (!prevWord && tok.isPrefixOf (c :: t) && boundaryAfter tok (c :: t)) ||
    hasTokenWBAux tok (isWordJS c) t

def hasTokenWB (tok : List Char) (l : List Char) : Bool :=
  hasTokenWBAux tok false l

/-- Regex `/tok\b/`: only the right side at a word boundary. -/
def hasTokenRB (tok : List Char) : List Char → Bool
  | [] => false
  | c :: t =>
    (tok.isPrefixOf (c :: t) && boundaryAfter tok (c :: t)) || hasTokenRB tok t

/-! ### Identifier codec (`idToCode`, main.jsx lines 70–74) -/

/-- `idToCode(id)`: 251–259 ↦ `F{id-250}`, 260–269 ↦ `S{id-260}`, otherwise the
decimal string of `id` unchanged. -/
def idToCode (id : Int) : String :=
  if 251 ≤ id ∧ id ≤ 259 then "F" ++ toString (id - 250)
  else if 260 ≤ id ∧ id ≤ 269 then "S" ++ toString (id - 260)
  else toString id

/-! ### Status classifier (`deriveStatusTag`, main.jsx lines 78–100) -/

/-- An entry of the Night Report parser before the status tag is attached. -/
structure REntry where
  code : String
  title : String
  input : String
  etr : String
  notes : List String
deriving DecidableEq, Repr

/-- JS `entry.notes.join(" ")`. -/
def joinSpace (xs : List String) : String := String.intercalate " " xs

/-- `hasDefect` in `deriveStatusTag`:
`/\bdefect:/`, `/\brect:/` or `/\bgr\b/` on the lower-cased title or joined notes. -/
def hasDefectSignal (e : REntry) : Bool :=
  let title := (lowerStr e.title).data
  let notes := (lowerStr (joinSpace e.notes)).data
  hasTokenLB "defect:".data title || hasTokenLB "defect:".data notes ||
  hasTokenLB "rect:".data title || hasTokenLB "rect:".data notes ||
  hasTokenWB "gr".data title || hasTokenWB "gr".data notes

/-- `inPhase` in `deriveStatusTag`: `/(major serv|phase\b)/` on the lower-cased
title only (header-only by design). -/
def inPhaseSignal (e : REntry) : Bool :=
  let title := (lowerStr e.title).data
  containsL "major serv".data title || hasTokenRB "phase".data title

/-- `recovery` in `deriveStatusTag`: `/(post phase rcv|recovery)/` on the
lower-cased title or joined notes. -/
def recoverySignal (e : REntry) : Bool :=
  let title := (lowerStr e.title).data
  let notes := (lowerStr (joinSpace e.notes)).data
  containsL "post phase rcv".data title || containsL "recovery".data title ||
  containsL "post phase rcv".data notes || containsL "recovery".data notes

/-- `/\s-\s*s(\b|$)/i.test(entry.title)`: a whitespace character, `-`,
optional whitespace, an `s`/`S` followed by a word boundary or the end. -/
def sDashAt : List Char → Bool
  | c :: t =>
    (isSpaceJS c &&
      (match t with
       | '-' :: u =>
         (match u.dropWhile isSpaceJS with
          | s :: w => (s == 's' || s == 'S') && boundaryAfter [s] (s :: w)
          | [] => false)
       | _ => false)) || sDashAt t
  | [] => false

def sDashTitle (e : REntry) : Bool := sDashAt e.title.data

/-- `deriveStatusTag`: priority rectification > in-phase > recovery >
serviceable; the explicit `" - S"` suffix branch and the default both yield
`"serviceable"`, exactly as in the source. -/
def deriveStatusTag (e : REntry) : String :=
  if hasDefectSignal e then "rectification"
  else if inPhaseSignal e then "in-phase"
  else if recoverySignal e then "recovery"
  else if sDashTitle e then "serviceable"
  else "serviceable"

/-! ### Night Report parser (`parseReport`, main.jsx lines 119–180) -/

/-- Ordered association-list update: overwrite in place if the key exists
(JS object semantics: insertion order is kept), else append. -/
def insertAssoc {α : Type} (m : List (String × α)) (k : String) (v : α) :
    List (String × α) :=
  if m.any (fun p => p.1 == k) then
    m.map (fun p => if p.1 == k then (k, v) else p)
  else m ++ [(k, v)]

/-- Update the value at key `k` (no-op if absent). -/
def updateAssoc {α : Type} (m : List (String × α)) (k : String) (f : α → α) :
    List (String × α) :=
  m.map (fun p => if p.1 == k then (k, f p.2) else p)

/-- Header regex `/^[>*\s-]*\*?\s*([SF]\d)\s*-\s*(.+)$/i` applied to a line;
returns the upper-cased code and the (trimmed, as the caller does) tail.
The leading class absorbs any `>`, `*`, `-` and whitespace (the following
`\*?\s*` can only consume characters of that same class, so the maximal class
match is the only candidate); the `(.+)` capture backtracks into the second
`\s*` when everything after `-` is whitespace, so a line like `"S2 -  "`
still matches, with a tail that trims to `""`. -/
def headerMatch (l : List Char) : Option (String × String) :=
  let rest := l.dropWhile (fun c => c == '>' || c == '*' || c == '-' || isSpaceJS c)
  match rest with
  | c0 :: c1 :: r2 =>
    if (c0 == 'S' || c0 == 'F' || c0 == 's' || c0 == 'f') && isDigitJS c1 then
      match r2.dropWhile isSpaceJS with
      | '-' :: r4 =>
        let tcap := r4.dropWhile isSpaceJS
        if tcap ≠ [] then some (String.mk [c0.toUpper, c1], String.mk (jsTrimL tcap))
        else if r4 ≠ [] then some (String.mk [c0.toUpper, c1], "")
        else none
      | _ => none
    else none
  | _ => none

/-- Regex `/^Label:\s*(.+)$/i` (for `Input:` / `ETR:`), returning the trimmed
capture; when everything after the label is whitespace the `(.+)` capture
backtracks to a single whitespace character, which trims to `""`. -/
def labelLineMatch (label : List Char) (l : List Char) : Option String :=
  if ciIsPrefixL label l then
    let rest := l.drop label.length
    let cap := rest.dropWhile isSpaceJS
    if cap ≠ [] then some (String.mk (jsTrimL cap))
    else if rest ≠ [] then some ""
    else none
  else none

/-- Parser state of `parseReport`: the entries object plus the mutable
`current` code pointer. -/
structure RState where
  entries : List (String × REntry)
  current : Option String
deriving DecidableEq, Repr

/-- One iteration of the `parseReport` line loop (the line is already
trimmed; empty lines are skipped). -/
def reportStep (st : RState) (line : String) : RState :=
  let l := line.data
  if l = [] then st
  else
    match headerMatch l with
    | some (code, tail) =>
      { entries := insertAssoc st.entries code
          { code := code, title := code ++ " - " ++ tail,
            input := "", etr := "", notes := [] },
        current := some code }
    | none =>
      match st.current with
      | none => st
      | some cur =>
        let setInput := fun (v : String) =>
          { st with entries := updateAssoc st.entries cur (fun e => { e with input := v }) }
        let setEtr := fun (v : String) =>
          { st with entries := updateAssoc st.entries cur (fun e => { e with etr := v }) }
        let pushNote := fun (s : String) =>
          { st with entries := updateAssoc st.entries cur (fun e => { e with notes := e.notes ++ [s] }) }
        match labelLineMatch "input:".data l with
        | some v => setInput v
        | none =>
          match labelLineMatch "etr:".data l with
          | some v => setEtr v
          | none =>
            match l with
            | '>' :: t => pushNote (String.mk (t.dropWhile isSpaceJS))
            | _ =>
              if l.head? = some '-' then
                pushNote (String.mk ((l.dropWhile (fun c => c == '-')).dropWhile isSpaceJS))
              else if (l.map Char.toLower) = "requirements".data then
                pushNote "Requirements:"
              else st

/-- A finalized Night Report entry (the `tag` field is attached after the
scan). -/
structure RFinalEntry where
  code : String
  title : String
  input : String
  etr : String
  notes : List String
  tag : String
deriving DecidableEq, Repr

/-- `parseReport`: normalize line endings, split, trim, fold the line loop,
then attach the derived status tag to every entry. -/
def parseReport (text : String) : List (String × RFinalEntry) :=
  let lines := (splitLinesL (stripCR text.data)).map (fun l => String.mk (jsTrimL l))
  let st := lines.foldl reportStep { entries := [], current := none }
  st.entries.map (fun p =>
    (p.1, { code := p.2.code, title := p.2.title, input := p.2.input,
            etr := p.2.etr, notes := p.2.notes, tag := deriveStatusTag p.2 }))

/-! ### Telegram defects parser (`parseTelegramDefects`, main.jsx lines 207–261) -/

theorem dropWhile_length_le {α : Type} (p : α → Bool) (l : List α) :
    (l.dropWhile p).length ≤ l.length := by
  induction l with
  | nil => simp [List.dropWhile]
  | cons a t ih =>
    by_cases h : p a = true
    · simpa [List.dropWhile, h] using Nat.le_succ_of_le ih
    · simp [List.dropWhile, h]

/-- JS `text.split(/\n{2,}/)`: split at each maximal run of two or more
newlines (a single newline stays inside its piece).  `cur` is the current
piece reversed, `pend` the number of newlines read but not yet classified
(one newline stays in the piece, a run of two or more is a separator). -/
def sbGo (cur : List Char) (pend : Nat) : List Char → List (List Char)
  | [] =>
    if pend ≥ 2 then [cur.reverse, []]
    else if pend = 1 then [('\n' :: cur).reverse]
    else [cur.reverse]
  | c :: t =>
    if c = '\n' then sbGo cur (pend + 1) t
    else if pend ≥ 2 then cur.reverse :: sbGo [c] 0 t
    else if pend = 1 then sbGo (c :: '\n' :: cur) 0 t
    else sbGo (c :: cur) 0 t

def splitBlocksL (l : List Char) : List (List Char) := sbGo [] 0 l

/-- `\s*$` with the `m` flag at the current position: some run of whitespace
ends at the end of the text or just before a `'\n'`. -/
def endOrNL : List Char → Bool
  | [] => true
  | c :: t => c == '\n' || (isSpaceJS c && endOrNL t)

/-- An attempt of `/^\s*([FS]\d)\s*$/im` at an anchored position: skip
whitespace (which, `\s` matching `'\n'`, may span whole blank lines), read a
code, and require `\s*$`. -/
def tgCodeAt (l : List Char) : Option String :=
  match l.dropWhile isSpaceJS with
  | c0 :: c1 :: r =>
    if (c0 == 'F' || c0 == 'S' || c0 == 'f' || c0 == 's') && isDigitJS c1 && endOrNL r
    then some (String.mk [c0.toUpper, c1]) else none
  | _ => none

/-- Leftmost match of `/^\s*([FS]\d)\s*$/im` over a block: the regex engine
tries every position; `^` (multiline) holds at the start and after each
`'\n'`. -/
def findCodeAux (atAnchor : Bool) : List Char → Option String
  | [] => none
  | c :: t =>
    if atAnchor then
      match tgCodeAt (c :: t) with
      | some s => some s
      | none => findCodeAux (c == '\n') t
    else findCodeAux (c == '\n') t

/-- `b.match(/^\s*([FS]\d)\s*$/im)`, returning the upper-cased captured code
of the first match, if any. -/
def findCodeLine (l : List Char) : Option String := findCodeAux true l

/-- The per-code accumulator of `parseTelegramDefects` (`current`). -/
structure TgAcc where
  code : String
  lines : List String
deriving DecidableEq, Repr

/-- Scanner state: the `byCode` object and the `current` accumulator. -/
structure TgState where
  byCode : List (String × TgAcc)
  current : Option TgAcc
deriving DecidableEq, Repr

/-- `pushCurrent`: store the current accumulator (if any) under its code. -/
def tgPush (m : List (String × TgAcc)) : Option TgAcc → List (String × TgAcc)
  | none => m
  | some acc => insertAssoc m acc.code acc

/-- One iteration of the block loop: a block containing a code-only line
starts a fresh accumulator (pushing the previous one); then, if an
accumulator is open, the block is appended verbatim to its line list. -/
def tgStep (st : TgState) (b : String) : TgState :=
  let st1 : TgState :=
    match findCodeLine b.data with
    | some c => { byCode := tgPush st.byCode st.current,
                  current := some { code := c, lines := [] } }
    | none => st
  match st1.current with
  | none => st1
  | some acc => { st1 with current := some { acc with lines := acc.lines ++ [b] } }

/-- The block-accumulation phase of `parseTelegramDefects` (lines 208–225):
split into trimmed non-empty blocks, scan, push the last accumulator. -/
def tgCollect (blocks : List String) : List (String × TgAcc) :=
  let fin := blocks.foldl tgStep { byCode := [], current := none }
  tgPush fin.byCode fin.current

/-- Blocks of the input text: split on `\n{2,}`, trim, drop empties. -/
def tgBlocks (text : String) : List String :=
  ((splitBlocksL (stripCR text.data)).map (fun l => String.mk (jsTrimL l))).filter
    (fun s => s ≠ "")

/-- `\s*([^\n]+)` after a label, greedy `\s*` with backtracking, capture
trimmed; `none` when no non-newline character is reachable (the regex then
fails at this occurrence). -/
def capAfterLabel (rest : List Char) : Option String :=
  let afterWS := rest.dropWhile isSpaceJS
  if afterWS ≠ [] then some (String.mk (jsTrimL (afterWS.takeWhile (fun c => c ≠ '\n'))))
  else if rest.any (fun c => c ≠ '\n') then some ""
  else none

/-- Leftmost match of `/Label:\s*([^\n]+)/i` (with a leading `\b` when `wb`),
returning the trimmed capture, `""` when there is no match — exactly
`(all.match(re)?.[1] || "").trim()`. -/
def getLabeledAux (wb : Bool) (label : List Char) (prevWord : Bool) :
    List Char → String
  | [] => ""
  | c :: t =>
    if (!wb || !prevWord) && ciIsPrefixL label (c :: t) then
      match capAfterLabel ((c :: t).drop label.length) with
      | some v => v
      | none => getLabeledAux wb label (isWordJS c) t
    else getLabeledAux wb label (isWordJS c) t

def getLabeled (wb : Bool) (label : List Char) (l : List Char) : String :=
  getLabeledAux wb label false l

/-- The quote classes of the `Date/Time U/S` pattern (main.jsx line 232). -/
def usQuote1 (c : Char) : Bool :=
  c == '‚' || c == 'Ä' || c == 'ò' || c == '\'' || c == '"'

def usQuote2 (c : Char) : Bool :=
  c == '‚' || c == 'Ä' || c == 'ô' || c == '\'' || c == '"'

/-- One attempt of `/Date\/Time\s*[Q1]?U\/S[Q2]?\s*:\s*([^\n]+)/i`. -/
def usMatchAt (l : List Char) : Option String :=
  if ciIsPrefixL "date/time".data l then
    let r1 := (l.drop 9).dropWhile isSpaceJS
    let r2 := match r1 with
      | c :: t => if usQuote1 c then t else r1
      | [] => r1
    if ciIsPrefixL "u/s".data r2 then
      let r3 := r2.drop 3
      let r4 := match r3 with
        | c :: t => if usQuote2 c then t else r3
        | [] => r3
      match r4.dropWhile isSpaceJS with
      | ':' :: r6 => capAfterLabel r6
      | _ => none
    else none
  else none

def usGet : List Char → String
  | [] => ""
  | c :: t =>
    match usMatchAt (c :: t) with
    | some v => v
    | none => usGet t

/-- `[A-Z][a-z]+:` under the `i` flag: at least two letters directly followed
by `':'` (the `[a-z]+` run must end exactly at the colon). -/
def labelish (x : List Char) : Bool :=
  let run := x.takeWhile (fun c => c.isAlpha)
  run.length ≥ 2 && (x.drop run.length).head? == some ':'

/-- Terminator of the lazy `defect` capture:
`(?:\n{1,2}[A-Z][a-z]+:|\n{2,}|$)`. -/
def defectTermAt : List Char → Bool
  | [] => true
  | '\n' :: r => r.head? == some '\n' || labelish r
  | _ => false

/-- Lazy `([\s\S]*?)` capture: everything up to the earliest position where
`term` holds (`term []` is true for all our terminators, via `$`). -/
def lazyCapUntil (term : List Char → Bool) : List Char → List Char
  | [] => []
  | c :: t => if term (c :: t) then [] else c :: lazyCapUntil term t

/-- `/\bDefect:\s*([\s\S]*?)(?:\n{1,2}[A-Z][a-z]+:|\n{2,}|$)/i`: leftmost
boundary-preceded `Defect:`; the greedy `\s*` runs first, then the lazy
capture stops at the earliest terminator. -/
def defectAux (prevWord : Bool) : List Char → String
  | [] => ""
  | c :: t =>
    if !prevWord && ciIsPrefixL "defect:".data (c :: t) then
      String.mk (jsTrimL (lazyCapUntil defectTermAt (((c :: t).drop 7).dropWhile isSpaceJS)))
    else defectAux (isWordJS c) t

def defectGet (l : List Char) : String := defectAux false l

/-- One attempt of `/(^|\n)\s*Recovery\s*$/i` at an anchored position (start
of text or just after a newline); `$` is the true end (no `m` flag). -/
def recovAt (l : List Char) : Bool :=
  let a := l.dropWhile isSpaceJS
  ciIsPrefixL "recovery".data a && (a.drop 8).all isSpaceJS

def recovAux (atAnchor : Bool) : List Char → Bool
  | [] => false
  | c :: t => (atAnchor && recovAt (c :: t)) || recovAux (c == '\n') t

def recoveryTest (l : List Char) : Bool := recovAux true l

/-- `/post\s*phase\s*rcv/i`. -/
def postPhaseAt (l : List Char) : Bool :=
  ciIsPrefixL "post".data l &&
    (let r := (l.drop 4).dropWhile isSpaceJS
     ciIsPrefixL "phase".data r &&
       ciIsPrefixL "rcv".data ((r.drop 5).dropWhile isSpaceJS))

def containsPostPhaseRcv : List Char → Bool
  | [] => false
  | c :: t => postPhaseAt (c :: t) || containsPostPhaseRcv t

/-- `G\/?run requirement:` — returns the remainder after the label. -/
def grStart (l : List Char) : Option (List Char) :=
  match l with
  | c :: t =>
    if c == 'G' || c == 'g' then
      match t with
      | '/' :: u => if ciIsPrefixL "run requirement:".data u then some (u.drop 16) else
          if ciIsPrefixL "run requirement:".data t then some (t.drop 16) else none
      | _ => if ciIsPrefixL "run requirement:".data t then some (t.drop 16) else none
    else none
  | [] => none

/-- `FCF requirement:` — remainder after the label. -/
def fcfStart (l : List Char) : Option (List Char) :=
  if ciIsPrefixL "fcf requirement:".data l then some (l.drop 16) else none

/-- Terminator of the `gr` capture: `(?:\n{2,}|FCF requirement:|Workcenter:|$)`. -/
def grTermAt (l : List Char) : Bool :=
  match l with
  | [] => true
  | '\n' :: r => r.head? == some '\n'
  | _ => (fcfStart l).isSome || ciIsPrefixL "workcenter:".data l

/-- Terminator of the `fcf` capture: `(?:\n{2,}|G\/?run requirement:|Workcenter:|$)`. -/
def fcfTermAt (l : List Char) : Bool :=
  match l with
  | [] => true
  | '\n' :: r => r.head? == some '\n'
  | _ => (grStart l).isSome || ciIsPrefixL "workcenter:".data l

/-- `l.replace(/^\s*[-‚Ä¢]\s*/, "")` (the bullet class of main.jsx line 243,
i.e. `-` plus the three mojibake bullet characters), then `.trim()`. -/
def bulletCls (c : Char) : Bool :=
  c == '-' || c == '‚' || c == 'Ä' || c == '¢'

def stripBulletJS (l : List Char) : List Char :=
  let a := l.dropWhile isSpaceJS
  match a with
  | c :: t => if bulletCls c then jsTrimL (t.dropWhile isSpaceJS) else jsTrimL l
  | [] => jsTrimL l

/-- The multi-line `gr`/`fcf` requirement list: capture, split on newlines,
strip bullets, trim, drop empties. -/
def reqList (cap : List Char) : List String :=
  (((splitLinesL cap).map (fun x => String.mk (stripBulletJS x))).filter
    (fun s => s ≠ ""))

/-- Leftmost `gr`-capture (`none` when the label never occurs). -/
def grCapAux : List Char → Option (List Char)
  | [] => none
  | c :: t =>
    match grStart (c :: t) with
    | some rest => some (lazyCapUntil grTermAt (rest.dropWhile isSpaceJS))
    | none => grCapAux t

/-- Leftmost `fcf`-capture. -/
def fcfCapAux : List Char → Option (List Char)
  | [] => none
  | c :: t =>
    match fcfStart (c :: t) with
    | some rest => some (lazyCapUntil fcfTermAt (rest.dropWhile isSpaceJS))
    | none => fcfCapAux t

/-- A finalized defect record (lines 228–258): the accumulated blocks plus the
independent field extractions over their `"\n\n"`-joined text. -/
structure TgRec where
  code : String
  lines : List String
  us : String
  defect : String
  rect : String
  etr : String
  recovery : Bool
  gr : List String
  fcf : List String
  workcenter : String
  prime : String
  system : String
deriving DecidableEq, Repr

/-- Field extraction for one accumulated record. -/
def tgExtract (acc : TgAcc) : TgRec :=
  let all := (String.intercalate "\n\n" acc.lines).data
  { code := acc.code
    lines := acc.lines
    us := usGet all
    defect := defectGet all
    rect := getLabeled true "rect:".data all
    etr := getLabeled true "etr:".data all
    recovery := recoveryTest all || containsPostPhaseRcv all
    gr := match grCapAux all with
      | some cap => reqList cap
      | none => []
    fcf := match fcfCapAux all with
      | some cap => reqList cap
      | none => []
    workcenter := getLabeled false "workcenter:".data all
    prime := getLabeled false "prime trade:".data all
    system := getLabeled false "system:".data all }

/-- `parseTelegramDefects`: block accumulation followed by per-code field
extraction (which keeps codes and line lists unchanged). -/
def parseTelegramDefects (text : String) : List (String × TgRec) :=
  (tgCollect (tgBlocks text)).map (fun p => (p.1, tgExtract p.2))

/-! ### HOTO parser (`parseHOTO`, main.jsx lines 267–359)

The source file's section markers are the exact character sequences found in
`main.jsx` (the original emoji squares survive there as the four-character
sequences `U+F8FF U+00FC U+00FC U+00A9` (green) and `U+F8FF U+00FC U+00FC
U+2022` (red), and the bullet markers as the three-character sequences
starting with `U+201A`); we embed the characters exactly as they appear in
the source. -/

/-- The green-square marker string of `/^üü©/` (main.jsx line 291 bytes). -/
def greenSq : List Char := ['\uF8FF', 'ü', 'ü', '©']

/-- The red-square marker string. -/
def redSq : List Char := ['\uF8FF', 'ü', 'ü', '•']

/-- The bullet marker `‚Ä¢` (mojibake of `•`). -/
def bullet3 : List Char := ['‚', 'Ä', '¢']

/-- The block marker `‚ñ†` (mojibake of `■`). -/
def blockSq : List Char := ['‚', 'ñ', '†']

/-- The circle marker `‚óè` (mojibake of `●`). -/
def circleSq : List Char := ['‚', 'ó', 'è']

/-- The character class of `/^([‚Ä¢‚ñ†‚óè])\s/`: the set of characters the
three mojibake bullet sequences consist of. -/
def hotoMajorCls (c : Char) : Bool :=
  c == '‚' || c == 'Ä' || c == '¢' || c == 'ñ' ||
  c == '†' || c == 'ó' || c == 'è'

/-- `isMajorHeader`: one class character followed by whitespace, or a line
starting with the green or red square sequence. -/
def isMajorHeader (l : List Char) : Bool :=
  (match l with
   | c :: d :: _ => hotoMajorCls c && isSpaceJS d
   | _ => false) ||
  greenSq.isPrefixOf l || redSq.isPrefixOf l

/-- `marker` occurs at this position followed by `\s*` and the keyword
(case-insensitively). -/
def mkStartsAt (marker kw : List Char) (l : List Char) : Bool :=
  marker.isPrefixOf l && ciIsPrefixL kw ((l.drop marker.length).dropWhile isSpaceJS)

/-- Unanchored search for marker + `\s*` + keyword (the completed/outstanding
header patterns carry no `^`). -/
def containsMk (marker kw : List Char) : List Char → Bool
  | [] => false
  | c :: t => mkStartsAt marker kw (c :: t) || containsMk marker kw t

/-- Segments joined by `\s*`, each matched case-insensitively. -/
def ciSeq : List (List Char) → List Char → Bool
  | [], _ => true
  | seg :: rest, l =>
    ciIsPrefixL seg l && ciSeq rest ((l.drop seg.length).dropWhile isSpaceJS)

/-- Anchored `^marker\s*seg₁\s*seg₂…`. -/
def anchoredSeq (marker : List Char) (segs : List (List Char)) (l : List Char) : Bool :=
  marker.isPrefixOf l && ciSeq segs ((l.drop marker.length).dropWhile isSpaceJS)

/-- `112D\/150H?rl?y\s*PROJECTION` under `i` (the optional `H` and `l` are
deterministic: the following mandatory letter differs from them). -/
def p112150At (l : List Char) : Bool :=
  ciIsPrefixL "112d/150".data l &&
    (let r := l.drop 8
     let r1 := match r with
       | c :: t => if c == 'h' || c == 'H' then t else r
       | [] => r
     match r1 with
     | c :: t =>
       (c == 'r' || c == 'R') &&
         (let r2 := match t with
           | d :: u => if d == 'l' || d == 'L' then u else t
           | [] => t
          match r2 with
          | y :: v => (y == 'y' || y == 'Y') &&
              ciIsPrefixL "projection".data (v.dropWhile isSpaceJS)
          | [] => false)
     | [] => false)

/-- The fourteen HOTO sections. -/
inductive HSection where
  | completed | outstanding
  | proj14 | proj28 | proj56 | proj112 | proj112150 | proj180
  | mee | eoss | bru | probe | aom | lessons
deriving DecidableEq, Repr

/-- `startSection`: the fourteen header patterns, tried in source order;
`none` when no pattern matches (the section is then left unchanged). -/
def startSection (l : List Char) : Option HSection :=
  if containsMk greenSq "job completed".data l then some .completed
  else if containsMk redSq "outstanding".data l then some .outstanding
  else if anchoredSeq bullet3 ["14d".data, "serv".data, "projection".data] l then some .proj14
  else if anchoredSeq bullet3 ["28d".data, "serv".data, "projection".data] l then some .proj28
  else if anchoredSeq bullet3 ["56d".data, "serv".data, "projection".data] l then some .proj56
  else if bullet3.isPrefixOf l && p112150At ((l.drop 3).dropWhile isSpaceJS) then some .proj112150
  else if anchoredSeq bullet3 ["112d".data, "serv".data, "projection".data] l then some .proj112
  else if anchoredSeq bullet3 ["180d".data, "serv".data, "projection".data] l then some .proj180
  else if anchoredSeq blockSq ["mee".data] l then some .mee
  else if anchoredSeq blockSq ["eoss".data, "status".data] l then some .eoss
  else if anchoredSeq blockSq ["bru".data, "status".data] l then some .bru
  else if anchoredSeq blockSq ["probe".data, "status".data] l then some .probe
  else if anchoredSeq circleSq ["aom".data] l then some .aom
  else if anchoredSeq circleSq ["lesson learnt".data] l then some .lessons
  else none

/-- An outstanding-record: optional short tag plus tickable items. -/
structure OutRec where
  tag : String
  items : List String
deriving DecidableEq, Repr

/-- The twelve auxiliary sections, in the declaration order of `out.extra`. -/
structure HExtra where
  proj14 : List String
  proj28 : List String
  proj56 : List String
  proj112 : List String
  proj112150 : List String
  proj180 : List String
  mee : List String
  eoss : List String
  bru : List String
  probe : List String
  aom : List String
  lessons : List String
deriving DecidableEq, Repr

def emptyHExtra : HExtra := ⟨[], [], [], [], [], [], [], [], [], [], [], []⟩

/-- Append a line to the extra section named by `k` (only called with one of
the twelve extra sections). -/
def pushExtra (ex : HExtra) (k : HSection) (s : String) : HExtra :=
  match k with
  | .proj14 => { ex with proj14 := ex.proj14 ++ [s] }
  | .proj28 => { ex with proj28 := ex.proj28 ++ [s] }
  | .proj56 => { ex with proj56 := ex.proj56 ++ [s] }
  | .proj112 => { ex with proj112 := ex.proj112 ++ [s] }
  | .proj112150 => { ex with proj112150 := ex.proj112150 ++ [s] }
  | .proj180 => { ex with proj180 := ex.proj180 ++ [s] }
  | .mee => { ex with mee := ex.mee ++ [s] }
  | .eoss => { ex with eoss := ex.eoss ++ [s] }
  | .bru => { ex with bru := ex.bru ++ [s] }
  | .probe => { ex with probe := ex.probe ++ [s] }
  | .aom => { ex with aom := ex.aom ++ [s] }
  | .lessons => { ex with lessons := ex.lessons ++ [s] }
  | _ => ex

/-- `/^([FS]\d)(?:\s*\(([^)]+)\))?.*$/i`: code plus optional parenthesized
tag; the optional group is taken greedily and fails (is skipped) when no
well-formed non-empty `(...)` follows. -/
def hotoCodeMatch (l : List Char) : Option (String × Option String) :=
  match l with
  | c0 :: c1 :: r =>
    if (c0 == 'F' || c0 == 'S' || c0 == 'f' || c0 == 's') && isDigitJS c1 then
      let tagPart : Option String :=
        match r.dropWhile isSpaceJS with
        | '(' :: t =>
          let inside := t.takeWhile (fun c => c ≠ ')')
          if inside ≠ [] && (t.drop inside.length).head? == some ')'
          then some (String.mk inside) else none
        | _ => none
      some (String.mk [c0.toUpper, c1], tagPart)
    else none
  | _ => none

/-- First char of an item line: `/^[-‚Ä¢>]/`. -/
def hotoItemStart (l : List Char) : Bool :=
  match l.head? with
  | some c => bulletCls c || c == '>'
  | none => false

/-- `line.replace(/^[-‚Ä¢]\s*/, "").trim()`. -/
def hotoClean (l : List Char) : List Char :=
  match l with
  | c :: t => if bulletCls c then jsTrimL (t.dropWhile isSpaceJS) else jsTrimL l
  | [] => []

/-- `clean.replace(/^>\s*/, "> ")`: normalize a `>`-marked sub-item. -/
def hotoKeep (clean : List Char) : List Char :=
  match clean with
  | '>' :: t => '>' :: ' ' :: t.dropWhile isSpaceJS
  | _ => clean

/-- Extra-section cleaning:
`line.replace(/^[-‚Ä¢]\s*/, "").replace(/^>\s*/, "").trim()`. -/
def extraClean (l : List Char) : List Char :=
  let l1 := match l with
    | c :: t => if bulletCls c then t.dropWhile isSpaceJS else l
    | [] => l
  let l2 := match l1 with
    | '>' :: t => t.dropWhile isSpaceJS
    | _ => l1
  jsTrimL l2

/-- Insert a key with a default value only when absent. -/
def ensureKey {α : Type} (m : List (String × α)) (k : String) (v : α) :
    List (String × α) :=
  if m.any (fun p => p.1 == k) then m else m ++ [(k, v)]

/-- The scanner state of `parseHOTO`. -/
structure HotoState where
  completed : List (String × List String)
  outstanding : List (String × OutRec)
  extra : HExtra
  sect : Option HSection  -- the JS variable `section` (a Lean keyword)
  currentCode : Option String
deriving DecidableEq, Repr

/-- One iteration of the `parseHOTO` line loop. -/
def hotoStep (st : HotoState) (raw : String) : HotoState :=
  let line := jsTrimL raw.data
  if line = [] then st
  else if isMajorHeader line then
    match startSection line with
    | some HSection.completed => { st with sect := some .completed, currentCode := none }
    | some HSection.outstanding => { st with sect := some .outstanding, currentCode := none }
    | some sec => { st with sect := some sec }
    | none => st
  else
    match st.sect with
    | some HSection.completed =>
      (match hotoCodeMatch line with
       | some (code, _) =>
         { st with completed := ensureKey st.completed code [], currentCode := some code }
       | none =>
         match st.currentCode with
         | some cur =>
           let item := if hotoItemStart line
             then String.mk (hotoKeep (hotoClean line)) else String.mk line
           { st with completed := updateAssoc st.completed cur (fun items => items ++ [item]) }
         | none => st)
    | some HSection.outstanding =>
      (match hotoCodeMatch line with
       | some (code, tagPart) =>
         let base := ensureKey st.outstanding code { tag := "", items := [] }
         let newTag := fun (rec0 : OutRec) =>
           match tagPart with
           | some t => if jsTrim t ≠ "" then jsTrim t else rec0.tag
           | none => rec0.tag
         let newOut := updateAssoc base code (fun rec0 => { rec0 with tag := newTag rec0 })
         { st with outstanding := newOut, currentCode := some code }
       | none =>
         match st.currentCode with
         | some cur =>
           let item := if hotoItemStart line
             then String.mk (hotoKeep (hotoClean line)) else String.mk line
           { st with outstanding := updateAssoc st.outstanding cur (fun rec0 => { rec0 with items := rec0.items ++ [item] }) }
         | none => st)
    | some sec => { st with extra := pushExtra st.extra sec (String.mk (extraClean line)) }
    | none => st

/-- The parsed handover document. -/
structure HOTOOut where
  completed : List (String × List String)
  outstanding : List (String × OutRec)
  extra : HExtra
deriving DecidableEq, Repr

/-- `parseHOTO`. -/
def parseHOTO (text : String) : HOTOOut :=
  let lines := (splitLinesL (stripCR text.data)).map String.mk
  let st := lines.foldl hotoStep
    { completed := [], outstanding := [], extra := emptyHExtra,
      sect := none, currentCode := none }
  { completed := st.completed, outstanding := st.outstanding, extra := st.extra }

/-! ### RTS parsing (daily + weekly), main.jsx lines 366–631.

`parseDateHeader` consults `new Date().getFullYear()` when the header carries
no explicit year; this ambient dependency is made explicit as the
`currentYear` parameter threaded through `parseDateHeader`, `parseRTSDaily`
and `parseRTSWeek`. -/

/-- `parseInt` of a digit run. -/
def charsToNat (l : List Char) : Nat :=
  l.foldl (fun n c => n * 10 + (c.toNat - 48)) 0

/-- The month-name lookup table of `parseDateHeader`. -/
def monthIndex (s : String) : Option Nat :=
  List.lookup s
    [("jan", 0), ("january", 0), ("feb", 1), ("february", 1),
     ("mar", 2), ("march", 2), ("apr", 3), ("april", 3), ("may", 4),
     ("jun", 5), ("june", 5), ("jul", 6), ("july", 6),
     ("aug", 7), ("august", 7), ("sep", 8), ("sept", 8), ("september", 8),
     ("oct", 9), ("october", 9), ("nov", 10), ("november", 10),
     ("dec", 11), ("december", 11)]

/-- `String(n).padStart(2, "0")`. -/
def pad2 (n : Nat) : String :=
  if n < 10 then "0" ++ toString n else toString n

/-- Strip every character outside the classes word, whitespace, parens, slash
and dash (the emoji-stripping replace of main.jsx line 382), then trim. -/
def dhClean (l : List Char) : List Char :=
  jsTrimL (l.filter (fun c =>
    isWordJS c || isSpaceJS c || c == '(' || c == ')' || c == '/' || c == '-'))

/-- `/^(\d{1,2})\s+([A-Za-z]{3,9})(?:\s+(\d{2,4}))?/` on the cleaned line:
day, month-name capture (at most nine letters of the letter run), optional
year (at most four digits of a run of at least two).  `\d{1,2}` directly
followed by a third digit cannot complete (backtracking lands on a digit
where `\s+` is required), so the leading digit run must have length 1 or 2. -/
def dhMatch (l : List Char) : Option (Nat × List Char × Option Nat) :=
  let drun := l.takeWhile isDigitJS
  if drun.length = 1 || drun.length = 2 then
    let r1 := l.drop drun.length
    let ws1 := r1.takeWhile isSpaceJS
    if ws1.length ≥ 1 then
      let r2 := r1.drop ws1.length
      let lrun := r2.takeWhile (fun c => c.isAlpha)
      if lrun.length ≥ 3 then
        let mon := lrun.take 9
        let r3 := r2.drop mon.length
        let ws2 := r3.takeWhile isSpaceJS
        let yr : Option Nat :=
          if ws2.length ≥ 1 then
            let yrun := (r3.drop ws2.length).takeWhile isDigitJS
            if yrun.length ≥ 2 then some (charsToNat (yrun.take 4)) else none
          else none
        some (charsToNat drun, mon, yr)
      else none
    else none
  else none

/-- `line.replace(/\s+\d{4}$/, "")`: strip a trailing exactly-four-digit run
(and the whole whitespace run before it, which must be non-empty). -/
def stripTrailYear (l : List Char) : List Char :=
  let r := l.reverse
  let d4 := r.take 4
  if d4.length = 4 && d4.all isDigitJS &&
      (match r.drop 4 with
       | c :: _ => isSpaceJS c
       | [] => false) then
    ((r.drop 4).dropWhile isSpaceJS).reverse
  else l

/-- The `{iso, label}` result of `parseDateHeader`. -/
structure DateHeader where
  iso : Option String
  label : String
deriving DecidableEq, Repr

/-- The placeholder label `"‚Äî"` of the no-match branch (main.jsx line 387:
the em-dash survives in the source as the three characters
`U+201A U+00C4 U+00EE`). -/
def emDashLabel : String := String.mk ['‚', 'Ä', 'î']

/-- `parseDateHeader(header)`, with the ambient `new Date().getFullYear()`
made explicit as `currentYear`. -/
def parseDateHeader (currentYear : Nat) (header : String) : DateHeader :=
  let line := dhClean header.data
  match dhMatch line with
  | none =>
    { iso := none,
      label := if jsTrim header ≠ "" then jsTrim header else emDashLabel }
  | some (dd, mon, yrOpt) =>
    let mmIndex := monthIndex (String.mk (mon.map Char.toLower))
    let yyyy := match yrOpt with
      | some yr => if yr < 100 then 2000 + yr else yr
      | none => currentYear
    let iso := match mmIndex with
      | some mi => some (toString yyyy ++ "-" ++ pad2 (mi + 1) ++ "-" ++ pad2 dd)
      | none => none
    let lbl := String.mk (jsTrimL (stripTrailYear line))
    { iso := iso, label := if lbl ≠ "" then lbl else jsTrim header }

/-- Does the first line's date header match with no explicit year (the only
case in which `currentYear` is consulted)? -/
def dhYearless (header : String) : Bool :=
  match dhMatch (dhClean header.data) with
  | some (_, _, none) => true
  | _ => false

/-- `dayRe.test(line.trim())` of `splitWeekIntoDays`: the day/month prefix
(everything after the month in the pattern is optional). -/
def dayReTest (l : List Char) : Bool :=
  (dhMatch (jsTrimL l)).isSome

/-- `splitWeekIntoDays`: slice the line list at day-header lines; text before
the first day header is dropped; each chunk is joined and trimmed, empty
chunks are dropped. -/
def swEmit (cur : List (List Char)) : List String :=
  let chunk := jsTrim (String.intercalate "\n" (cur.reverse.map String.mk))
  if chunk ≠ "" then [chunk] else []

/-- `cur`: the reversed lines of the currently open day chunk (`none` before
the first day-header line, whose preceding lines are dropped). -/
def splitWeekGo (cur : Option (List (List Char))) : List (List Char) → List String
  | [] =>
    match cur with
    | none => []
    | some ls => swEmit ls
  | l :: rest =>
    if dayReTest l then
      match cur with
      | none => splitWeekGo (some [l]) rest
      | some ls => swEmit ls ++ splitWeekGo (some [l]) rest
    else
      match cur with
      | none => splitWeekGo none rest
      | some ls => splitWeekGo (some (l :: ls)) rest

def splitWeekIntoDays (text : String) : List String :=
  splitWeekGo none (splitLinesL (stripCR text.data))

/-- One alternative of the `parseSection` guard
`^\s*(?:H₁|H₂|…)\b` (case-insensitive, applied to a trimmed line). -/
def guardOne (h : String) (s : List Char) : Bool :=
  ciIsPrefixL (lowerStr h).data s && boundaryAfter h.data s

def guardAny (hs : List String) (s : List Char) : Bool :=
  hs.any (fun h => guardOne h s)

/-- `parseSection`: collect trimmed lines (blank lines as `""`) until a guard
header; returns the items (with trailing blanks popped) and the remaining
lines starting at the guard line. -/
def psGo (hs : List String) : List String → List String × List String
  | [] => ([], [])
  | l :: rest =>
    if jsTrimL l.data = [] then
      ("" :: (psGo hs rest).1, (psGo hs rest).2)
    else if guardAny hs (jsTrimL l.data) then ([], l :: rest)
    else (String.mk (jsTrimL l.data) :: (psGo hs rest).1, (psGo hs rest).2)

def dropTrailEmpty (xs : List String) : List String :=
  (xs.reverse.dropWhile (fun s => jsTrim s = "")).reverse

def parseSection (ls : List String) (hs : List String) : List String × List String :=
  let p := psGo hs ls
  (dropTrailEmpty p.1, p.2)

/-- A mission/spare record `{type, code, label}`. -/
structure Mission where
  type : String
  code : Option String
  label : String
deriving DecidableEq, Repr

/-- `/\bspare\b(?!\s*window)/i`. -/
def spareNWAux (prevWord : Bool) : List Char → Bool
  | [] => false
  | c :: t =>
    (!prevWord && ciIsPrefixL "spare".data (c :: t) && boundaryAfter "spare".data (c :: t) &&
      !(ciIsPrefixL "window".data (((c :: t).drop 5).dropWhile isSpaceJS))) ||
    spareNWAux (isWordJS c) t

def spareNotWindow (l : List Char) : Bool := spareNWAux false l

/-- `/\bspare\s*window\b/i`. -/
def spareWinAux (prevWord : Bool) : List Char → Bool
  | [] => false
  | c :: t =>
    (!prevWord && ciIsPrefixL "spare".data (c :: t) &&
      (let r := ((c :: t).drop 5).dropWhile isSpaceJS
       ciIsPrefixL "window".data r && boundaryAfter "window".data r)) ||
    spareWinAux (isWordJS c) t

def spareWindowTest (l : List Char) : Bool := spareWinAux false l

/-- `\d{3,4}\s*-\s*\d{3,4}` anchored at this position, returning the
whitespace-compressed range (`match.replace(/\s+/g, "")`) and the
remainder.  A digit run of five or more cannot head a match (after three or
four digits the next character is still a digit where `-` is required); the
second run is captured greedily up to four digits. -/
def timeRangeAt (l : List Char) : Option (String × List Char) :=
  let d1 := l.takeWhile isDigitJS
  if d1.length ≥ 3 && d1.length ≤ 4 then
    match (l.drop d1.length).dropWhile isSpaceJS with
    | '-' :: rB =>
      let rC := rB.dropWhile isSpaceJS
      let d2run := rC.takeWhile isDigitJS
      if d2run.length ≥ 3 then
        let d2 := d2run.take 4
        some (String.mk (d1 ++ '-' :: d2), rC.drop d2.length)
      else none
    | _ => none
  else none

/-- `codeChars c₀ c₁`: the `[FS]\d` class under `i`. -/
def codeChars (c0 c1 : Char) : Bool :=
  (c0 == 'F' || c0 == 'S' || c0 == 'f' || c0 == 's') && isDigitJS c1

/-- `/^([FS]\d)\s*[:\-]?\s*(\d{3,4}\s*-\s*\d{3,4})?\s*(.*)$/i`: code,
compressed optional time range, and the `(.*)` capture. -/
def mStdMatch (l : List Char) : Option (String × String × List Char) :=
  match l with
  | c0 :: c1 :: r =>
    if codeChars c0 c1 then
      let r1 := r.dropWhile isSpaceJS
      let r2 := match r1 with
        | c :: t => if c == ':' || c == '-' then t else r1
        | [] => r1
      let r3 := r2.dropWhile isSpaceJS
      match timeRangeAt r3 with
      | some (time, rest) =>
        some (String.mk [c0.toUpper, c1], time, rest.dropWhile isSpaceJS)
      | none => some (String.mk [c0.toUpper, c1], "", r3)
    else none
  | _ => none

/-- `parseMissionLine`. -/
def parseMissionLine (ln : String) : Option Mission :=
  let s := jsTrim ln
  if s = "" || lowerStr s = "nil" then none
  else
    let sd := s.data
    let isSpareText := spareNotWindow sd
    match mStdMatch sd with
    | some (code, time, restCap) =>
      let rest := jsTrim (String.mk restCap)
      if isSpareText ||
          (ciIsPrefixL "spare".data rest.data && boundaryAfter "spare".data rest.data) then
        let rep := if ciIsPrefixL "spare".data rest.data then rest.data.drop 5 else rest.data
        let extra := if rep ≠ [] then " " ++ jsTrim (String.mk rep) else ""
        some { type := "spare", code := some code,
               label := jsTrim (code ++ " Spare" ++ extra) }
      else
        let text := String.intercalate " " (([time, rest]).filter (fun x => x ≠ ""))
        some { type := "mission", code := some code,
               label := if text = "" then code else text }
    | none =>
      let asSpare :=
        (match sd with
         | c0 :: c1 :: t => codeChars c0 c1 && hasTokenWBAux "spare".data true t
         | _ => false)
      if asSpare && !spareWindowTest sd then
        match sd with
        | c0 :: c1 :: _ => some { type := "spare", code := some (String.mk [c0.toUpper, c1]), label := s }
        | _ => none
      else if ciIsPrefixL "nil".data sd &&
          ciIsPrefixL "spare".data ((sd.drop 3).dropWhile isSpaceJS) then
        some { type := "spare", code := none, label := "Nil Spare" }
      else if (ciIsPrefixL "bmd".data sd && boundaryAfter "bmd".data sd) ||
          (ciIsPrefixL "rsd".data sd && boundaryAfter "rsd".data sd) then
        some { type := "mission", code := none, label := s }
      else none

/-- A healing record `{code, label}`. -/
structure Heal where
  code : Option String
  label : String
deriving DecidableEq, Repr

/-- Find the first `\d{3,4}\s*-\s*\d{3,4}` match anywhere in the text
(compressed), with the remainder after it. -/
def healScanGo : List Char → Option (String × List Char)
  | [] => none
  | c :: t =>
    match timeRangeAt (c :: t) with
    | some res => some res
    | none => healScanGo t

/-- All successive time-range matches (the `timeRe.exec` loop), together with
the remainder after the last match (`rhs.slice(lastIndex)`).  Fueled: every
match consumes at least seven characters, so fuel `l.length + 1` can never
run out before the scan is finished. -/
def healTimesF : Nat → List Char → List String × List Char
  | 0, l => ([], l)
  | fuel + 1, l =>
    match healScanGo l with
    | none => ([], l)
    | some (chunk, rest) =>
      let p := healTimesF fuel rest
      (chunk :: p.1, if p.1.isEmpty then rest else p.2)

def healTimes (l : List Char) : List String × List Char :=
  healTimesF (l.length + 1) l

/-- The `(.+)` capture of `/^([FS]\d)\s*:?\s*(.+)$/i` (with its backtracking
through `:?` and the two `\s*`), or `none` when the regex fails. -/
def healCap (rest : List Char) : Option (List Char) :=
  let a := rest.dropWhile isSpaceJS
  match a with
  | ':' :: t =>
    let b := t.dropWhile isSpaceJS
    if b ≠ [] then some b
    else
      match t.reverse with
      | x :: _ => some [x]
      | [] => some a
  | [] =>
    match rest.reverse with
    | x :: _ => some [x]
    | [] => none
  | _ :: _ => some a

/-- `parseHealingLine`: one record per embedded time range, the trailing
non-time text joined onto each produced label (`times.map`), the whole rhs
when no time range occurs, and a code-less record for a line with no code. -/
def parseHealingLine (ln : String) : List Heal :=
  let s := jsTrim ln
  if s = "" || lowerStr s = "nil" then []
  else
    match s.data with
    | c0 :: c1 :: rest =>
      if codeChars c0 c1 then
        match healCap rest with
        | none => [{ code := none, label := s }]
        | some cap =>
          let code := String.mk [c0.toUpper, c1]
          let rhs := jsTrimL cap
          let p := healTimes rhs
          if p.1.isEmpty then [{ code := some code, label := String.mk rhs }]
          else
            let trailing := jsTrim (String.mk p.2)
            p.1.map (fun t =>
              { code := some code,
                label := if trailing ≠ "" then t ++ " " ++ trailing else t })
      else [{ code := none, label := s }]
    | _ => [{ code := none, label := s }]

/-- The remaining lines of `psGo` form a suffix of the input. -/
theorem psGo_rem_le (hs : List String) : ∀ ls : List String, (psGo hs ls).2.length ≤ ls.length
  | [] => by simp [psGo]
  | l :: rest => by
    have ih := psGo_rem_le hs rest
    simp only [psGo]
    split_ifs with h1 h2
    · exact Nat.le_succ_of_le ih
    · simp
    · exact Nat.le_succ_of_le ih

theorem parseSection_rem_le (ls : List String) (hs : List String) :
    (parseSection ls hs).2.length ≤ ls.length := psGo_rem_le hs ls

/-- Section header tests of `parseRTSDaily` (`H_RTS` … `H_NOTES`). -/
def hRTS (s : List Char) : Bool :=
  ciIsPrefixL "rts".data s && ((s.drop 3).dropWhile isSpaceJS).head? == some ':'

def hHeal (s : List Char) : Bool :=
  ciIsPrefixL "healing".data s && boundaryAfter "healing".data s

def hHot (s : List Char) : Bool :=
  ciIsPrefixL "hot".data s && boundaryAfter "hot".data s

def hCold (s : List Char) : Bool :=
  ciIsPrefixL "cold".data s && boundaryAfter "cold".data s

def hOps (s : List Char) : Bool :=
  ciIsPrefixL "ops".data s &&
    (let r := (s.drop 3).dropWhile isSpaceJS
     ciIsPrefixL "brief".data r && boundaryAfter "brief".data r)

def hNotes (s : List Char) : Bool :=
  ciIsPrefixL "notes".data s && boundaryAfter "notes".data s

def isHeaderRTS (s : List Char) : Bool :=
  hRTS s || hHeal s || hHot s || hCold s || hOps s || hNotes s

/-- `/\S/.test(ln)`. -/
def hasNonWS (ln : String) : Bool := ln.data.any (fun c => !isSpaceJS c)

/-- `ln.replace(/[,;]/g, ",").trim()`. -/
def opsClean (ln : String) : String :=
  jsTrim (String.mk (ln.data.map (fun c => if c == ',' || c == ';' then ',' else c)))

/-- The section accumulators of `parseRTSDaily`. -/
structure RTSAcc where
  missions : List Mission
  spares : List Mission
  healing : List Heal
  hot : List String
  cold : List String
  ops : List String
  notes : List String
deriving DecidableEq, Repr

/-- Route one parsed mission/spare line into the accumulators. -/
def addMission (acc : RTSAcc) (ln : String) : RTSAcc :=
  match parseMissionLine ln with
  | none => acc
  | some m =>
    if m.type = "spare" then { acc with spares := acc.spares ++ [m] }
    else { acc with missions := acc.missions ++ [m] }

/-- The explicit-section loop of `parseRTSDaily` (step 2): each recognized
header consumes its bounded section, any other line is skipped.  Fueled:
every iteration consumes at least one line (`parseSection_rem_le`), so fuel
`ls.length + 1` can never run out. -/
def rtsLoopF (acc : RTSAcc) : Nat → List String → RTSAcc
  | 0, _ => acc
  | _ + 1, [] => acc
  | fuel + 1, l :: rest =>
    let s := jsTrimL l.data
    if hRTS s then
      let p := parseSection rest ["Healing", "Hot", "Cold", "Ops Brief", "Notes"]
      rtsLoopF (p.1.foldl addMission acc) fuel p.2
    else if hHeal s then
      let p := parseSection rest ["Hot", "Cold", "Ops Brief", "Notes"]
      rtsLoopF { acc with healing := acc.healing ++ (p.1.map parseHealingLine).flatten } fuel p.2
    else if hHot s then
      let p := parseSection rest ["Cold", "Ops Brief", "Notes"]
      let kept := p.1.filter (fun ln => hasNonWS ln && lowerStr ln ≠ "nil")
      rtsLoopF { acc with hot := acc.hot ++ kept } fuel p.2
    else if hCold s then
      let p := parseSection rest ["Ops Brief", "Notes"]
      let kept := p.1.filter (fun ln => hasNonWS ln && lowerStr ln ≠ "nil")
      rtsLoopF { acc with cold := acc.cold ++ kept } fuel p.2
    else if hOps s then
      let p := parseSection rest ["Notes"]
      rtsLoopF { acc with ops := acc.ops ++ (p.1.filter hasNonWS).map opsClean } fuel p.2
    else if hNotes s then
      let p := parseSection rest ([] : List String)
      rtsLoopF { acc with notes := acc.notes ++ p.1.filter hasNonWS } fuel p.2
    else rtsLoopF acc fuel rest

def rtsLoop (acc : RTSAcc) (ls : List String) : RTSAcc :=
  rtsLoopF acc (ls.length + 1) ls

/-- One parsed RTS day. -/
structure RTSDay where
  dateISO : Option String
  dateLabel : String
  missions : List Mission
  spares : List Mission
  healing : List Heal
  hot : List String
  cold : List String
  ops : List String
  notes : List String
deriving DecidableEq, Repr

/-- The body of `parseRTSDaily` after the date header has been resolved:
mission/spare lines before the first recognized header (step 1), then the
explicit sections.  The ambient year is used nowhere here. -/
def rtsFromLines (dh : DateHeader) (lines : List String) : RTSDay :=
  let body := lines.drop 1
  let pre := body.takeWhile (fun l => !isHeaderRTS (jsTrimL l.data))
  let acc1 := ((pre.map jsTrim).filter (fun x => x ≠ "")).foldl addMission
    ⟨[], [], [], [], [], [], []⟩
  let acc := rtsLoop acc1 (body.dropWhile (fun l => !isHeaderRTS (jsTrimL l.data)))
  { dateISO := dh.iso, dateLabel := dh.label,
    missions := acc.missions, spares := acc.spares, healing := acc.healing,
    hot := acc.hot, cold := acc.cold, ops := acc.ops, notes := acc.notes }

/-- `parseRTSDaily` (the `!lines.length` null-return branch of the source is
dead: `split` always yields at least one element). -/
def parseRTSDaily (currentYear : Nat) (text : String) : RTSDay :=
  let lines := (splitLinesL (stripCR text.data)).map String.mk
  rtsFromLines (parseDateHeader currentYear (lines.headD "")) lines

/-- `/(RTS:|Healing|Notes|Hot|Cold|Ops Brief)/i.test(body)` (plain substring
containment on the lower-cased body). -/
def rtsAnyKw (l : List Char) : Bool :=
  containsL "rts:".data l || containsL "healing".data l || containsL "notes".data l ||
  containsL "hot".data l || containsL "cold".data l || containsL "ops brief".data l

/-- `parseRTSWeek`: split into day blocks, prepend an implicit `RTS:` to a
body with no recognized section keyword, re-run the daily parser on
`label + body` (the `parsed || {...}` fallback of the source is dead:
`parseRTSDaily` never returns null). -/
def parseRTSWeek (currentYear : Nat) (text : String) : List RTSDay :=
  (splitWeekIntoDays text).map (fun chunk =>
    let lines := (splitLinesL chunk.data).map String.mk
    let dh := parseDateHeader currentYear (lines.headD "")
    let body := String.intercalate "\n" (lines.drop 1)
    let body2 := if rtsAnyKw (lowerStr body).data then body else "RTS:\n" ++ body
    parseRTSDaily currentYear (dh.label ++ "\n" ++ body2))


/-! ### Spec-side definitions used by the claim theorems -/

/-- `findCodeLine` finds no code-only line in the block. -/
def noCodeB (b : String) : Bool := (findCodeLine b.data).isNone

/-- Declarative block grouping, following the (amended) specification wording:
blocks before the first block containing a code-only line are discarded; a
block containing a code-only line opens the group of its first such code,
which extends over the following code-less blocks. -/
def tgGroupsSpec : List String → List (String × List String)
  | [] => []
  | b :: bs =>
    match findCodeLine b.data with
    | none => tgGroupsSpec bs
    | some c => (c, b :: bs.takeWhile noCodeB) :: tgGroupsSpec (bs.dropWhile noCodeB)
termination_by l => l.length
decreasing_by
  · simp
  · exact Nat.lt_succ_of_le (dropWhile_length_le _ _)

/-- Insert one group into the byCode object (JS assignment semantics). -/
def tgIns (m : List (String × TgAcc)) (g : String × List String) : List (String × TgAcc) :=
  insertAssoc m g.1 ⟨g.1, g.2⟩

/-- The scan of `parseTelegramDefects` from an arbitrary state, including the
final `pushCurrent`. -/
def tgScanFin (m : List (String × TgAcc)) (cur : Option TgAcc) (bs : List String) :
    List (String × TgAcc) :=
  let fin := bs.foldl tgStep ⟨m, cur⟩
  tgPush fin.byCode fin.current

/-- A block "consists solely of a bare Code optionally surrounded by
whitespace": its trim is exactly an `[FS]` letter and a digit. -/
def isCodeOnlyBlock (b : String) : Bool :=
  match jsTrimL b.data with
  | [c0, c1] => codeChars c0 c1
  | _ => false

/-- The first line of the text as `parseRTSDaily` reads it. -/
def rtsFirstLine (text : String) : String :=
  (((splitLinesL (stripCR text.data)).map String.mk).headD "")

/-! ### Helper lemmas -/

theorem tgScan_some : ∀ (bs : List String) (m : List (String × TgAcc)) (c : String) (ls : List String),
    tgScanFin m (some ⟨c, ls⟩) bs =
      (tgGroupsSpec (bs.dropWhile noCodeB)).foldl tgIns
        (insertAssoc m c ⟨c, ls ++ bs.takeWhile noCodeB⟩)
  | [], m, c, ls => by
    simp [tgScanFin, tgPush, tgGroupsSpec]
  | b :: bs, m, c, ls => by
    cases hb : findCodeLine b.data with
    | none =>
      have hnc : noCodeB b = true := by simp [noCodeB, hb]
      have step : tgStep ⟨m, some ⟨c, ls⟩⟩ b = ⟨m, some ⟨c, ls ++ [b]⟩⟩ := by
        simp [tgStep, hb]
      have unfold1 : tgScanFin m (some ⟨c, ls⟩) (b :: bs) = tgScanFin m (some ⟨c, ls ++ [b]⟩) bs := by
        simp [tgScanFin, step]
      rw [unfold1, tgScan_some bs m c (ls ++ [b])]
      simp [hnc]
    | some c2 =>
      have hnc : noCodeB b = false := by simp [noCodeB, hb]
      have step : tgStep ⟨m, some ⟨c, ls⟩⟩ b = ⟨insertAssoc m c ⟨c, ls⟩, some ⟨c2, [b]⟩⟩ := by
        simp [tgStep, hb, tgPush]
      have unfold1 : tgScanFin m (some ⟨c, ls⟩) (b :: bs) =
          tgScanFin (insertAssoc m c ⟨c, ls⟩) (some ⟨c2, [b]⟩) bs := by
        simp [tgScanFin, step]
      rw [unfold1, tgScan_some bs (insertAssoc m c ⟨c, ls⟩) c2 [b]]
      rw [List.dropWhile_cons_of_neg (by simp [hnc]), List.takeWhile_cons_of_neg (by simp [hnc])]
      rw [show tgGroupsSpec (b :: bs) =
        (c2, b :: bs.takeWhile noCodeB) :: tgGroupsSpec (bs.dropWhile noCodeB) by
          rw [tgGroupsSpec]; simp [hb]]
      simp [tgIns]

theorem tgScan_none : ∀ (bs : List String) (m : List (String × TgAcc)),
    tgScanFin m none bs = (tgGroupsSpec bs).foldl tgIns m
  | [], m => by simp [tgScanFin, tgPush, tgGroupsSpec]
  | b :: bs, m => by
    cases hb : findCodeLine b.data with
    | none =>
      have step : tgStep ⟨m, none⟩ b = ⟨m, none⟩ := by
        simp [tgStep, hb]
      have unfold1 : tgScanFin m none (b :: bs) = tgScanFin m none bs := by
        simp [tgScanFin, step]
      rw [unfold1, tgScan_none bs m]
      rw [show tgGroupsSpec (b :: bs) = tgGroupsSpec bs by rw [tgGroupsSpec]; simp [hb]]
    | some c2 =>
      have step : tgStep ⟨m, none⟩ b = ⟨m, some ⟨c2, [b]⟩⟩ := by
        simp [tgStep, hb, tgPush]
      have unfold1 : tgScanFin m none (b :: bs) = tgScanFin m (some ⟨c2, [b]⟩) bs := by
        simp [tgScanFin, step]
      rw [unfold1, tgScan_some bs m c2 [b]]
      rw [show tgGroupsSpec (b :: bs) =
        (c2, b :: bs.takeWhile noCodeB) :: tgGroupsSpec (bs.dropWhile noCodeB) by
          rw [tgGroupsSpec]; simp [hb]]
      simp [tgIns]

theorem parseDateHeader_indep (y1 y2 : Nat) (header : String)
    (h : dhYearless header = false) :
    parseDateHeader y1 header = parseDateHeader y2 header := by
  unfold dhYearless at h
  unfold parseDateHeader
  cases hm : dhMatch (dhClean header.data) with
  | none => simp [hm]
  | some trip =>
    obtain ⟨dd, mon, yrOpt⟩ := trip
    cases yrOpt with
    | none => rw [hm] at h; simp at h
    | some yr => simp [hm]


/-! ### Claim theorems -/

/-- C1 (code_bug evidence): on the line `"S2: 1200 - 1300 1500 - 1600 GR"`
(a code, two time ranges and trailing text), `parseHealingLine` appends the
trailing text `"GR"` to **every** produced record's label, not only to the
last one as the specification (and the source's own comment, "Include
trailing text … once at the end") state. -/
theorem C1_healing_trailing_on_every_record :
    parseHealingLine "S2: 1200 - 1300 1500 - 1600 GR" =
      [{ code := some "S2", label := "1200-1300 GR" },
       { code := some "S2", label := "1500-1600 GR" }] := by
  rfl

/-- C2 (counterexample): the block `"S3\nDefect: abc"` does not consist
solely of a bare code, yet it starts a new accumulator keyed `"S3"` (the
code-only-line regex carries the `m` flag, so a code-only *line* anywhere in
the block suffices), contradicting "a block that contains any other text
besides the code never starts a new accumulator" and "blocks seen before the
first code-only block are discarded". -/
theorem C2_counterexample :
    tgBlocks "S3\nDefect: abc" = ["S3\nDefect: abc"] ∧
    isCodeOnlyBlock "S3\nDefect: abc" = false ∧
    (parseTelegramDefects "S3\nDefect: abc").map (fun p => (p.1, p.2.lines)) =
      [("S3", ["S3\nDefect: abc"])] := by
  refine ⟨rfl, rfl, rfl⟩

/-- C2 (amended): a new accumulator is started exactly for the blocks in
which some whole line is a bare Code (the multiline `^\s*([FS]\d)\s*$`
test), keyed by the first such line's code; every block from such a block up
to (but excluding) the next such block is appended verbatim to that
accumulator's line list, and blocks before the first such block are
discarded — i.e. the imperative scan agrees with the declarative grouping
`tgGroupsSpec`, inserted in order with JS-object assignment semantics. -/
theorem C2_accumulator_grouping (text : String) :
    parseTelegramDefects text =
      ((tgGroupsSpec (tgBlocks text)).foldl tgIns []).map
        (fun p => (p.1, tgExtract p.2)) := by
  unfold parseTelegramDefects
  rw [show tgCollect (tgBlocks text) = tgScanFin [] none (tgBlocks text) from rfl]
  rw [tgScan_none]

/-- C3 (counterexample): `parseRTSDaily` is not independent of the ambient
state: on the year-less header `"13 Aug (Wed)"` the resolved `dateISO`
follows the current year (`2025-08-13` vs `2026-08-13`), so two runs of the
same parser on the same string can differ across a year boundary. -/
theorem C3_counterexample :
    parseRTSDaily 2025 "13 Aug (Wed)" ≠ parseRTSDaily 2026 "13 Aug (Wed)" := by
  decide

/-- C3 (amended): every parser is a deterministic function of its text plus
the current year, and the current year can enter only through a matched
year-less first-line date header: whenever the first line does not match as
a year-less date header, `parseRTSDaily` is independent of the current
year. -/
theorem C3_fixed_year_deterministic (y1 y2 : Nat) (text : String)
    (h : dhYearless (rtsFirstLine text) = false) :
    parseRTSDaily y1 text = parseRTSDaily y2 text := by
  unfold rtsFirstLine at h
  unfold parseRTSDaily
  exact congrArg (fun dh => rtsFromLines dh _) (parseDateHeader_indep y1 y2 _ h)

/-- C3 witness: with an explicit year in the header the hypothesis holds and
the outputs at current years 2025 and 2026 coincide. -/
theorem C3_fixed_year_deterministic_witness :
    dhYearless (rtsFirstLine "13 Aug 25 (Wed)") = false ∧
    parseRTSDaily 2025 "13 Aug 25 (Wed)" = parseRTSDaily 2026 "13 Aug 25 (Wed)" :=
  ⟨by rfl, C3_fixed_year_deterministic 2025 2026 "13 Aug 25 (Wed)" (by rfl)⟩

/-- C4 (counterexample): the entry titled `"XDefect: leak"` contains
`"Defect:"` (case-insensitively) as a substring, but the defect test is
`/\bdefect:/` and `X` is a word character, so no word boundary precedes it:
`deriveStatusTag` returns `"serviceable"`, not `"rectification"`. -/
theorem C4_counterexample :
    containsL "defect:".data (lowerStr "XDefect: leak").data = true ∧
    deriveStatusTag ⟨"F2", "XDefect: leak", "", "", []⟩ = "serviceable" := by
  refine ⟨rfl, rfl⟩

/-- C4 (amended): for every entry whose title contains `defect:`
(case-insensitively) at a position preceded by a word boundary,
`deriveStatusTag` returns `"rectification"` regardless of any in-phase or
recovery signal also present — the defect signal has highest priority. -/
theorem C4_defect_dominates (e : REntry)
    (h : hasTokenLB "defect:".data (lowerStr e.title).data = true) :
    deriveStatusTag e = "rectification" := by
  have hd : hasDefectSignal e = true := by
    unfold hasDefectSignal
    simp [h]
  simp [deriveStatusTag, hd]

/-- C4 witness: a title carrying both `Defect:` and `Phase` classifies as
rectification. -/
theorem C4_defect_dominates_witness :
    deriveStatusTag ⟨"F2", "F2 - Defect: leak during Phase", "", "", []⟩ = "rectification" :=
  C4_defect_dominates ⟨"F2", "F2 - Defect: leak during Phase", "", "", []⟩ (by rfl)

/-- C5 (counterexample): the title `"F3 - rephase"` contains neither
`"major serv"` nor the standalone word `"phase"` (no left word boundary), and
the entry has no defect or recovery signal; yet the in-phase test is
`/phase\b/` (right boundary only), which matches inside `rephase`, so
`deriveStatusTag` returns `"in-phase"`, not `"serviceable"`. -/
theorem C5_counterexample :
    hasDefectSignal ⟨"F3", "F3 - rephase", "", "", []⟩ = false ∧
    recoverySignal ⟨"F3", "F3 - rephase", "", "", []⟩ = false ∧
    containsL "major serv".data (lowerStr "F3 - rephase").data = false ∧
    hasTokenWB "phase".data (lowerStr "F3 - rephase").data = false ∧
    deriveStatusTag ⟨"F3", "F3 - rephase", "", "", []⟩ = "in-phase" := by
  refine ⟨rfl, rfl, rfl, rfl, rfl⟩

/-- C5 (amended): the in-phase signal is evaluated on the title only: an
entry with no defect and no recovery signal whose title contains neither
`"major serv"` nor `"phase"` followed by a word boundary classifies as
`"serviceable"`, whatever its notes contain (in particular the word
`"phase"` in the notes never yields `"in-phase"`). -/
theorem C5_in_phase_title_only (e : REntry)
    (h1 : hasDefectSignal e = false) (h2 : recoverySignal e = false)
    (h3 : containsL "major serv".data (lowerStr e.title).data = false)
    (h4 : hasTokenRB "phase".data (lowerStr e.title).data = false) :
    deriveStatusTag e = "serviceable" := by
  have hp : inPhaseSignal e = false := by
    unfold inPhaseSignal
    simp [h3, h4]
  simp [deriveStatusTag, h1, h2, hp]

/-- C5 witness: notes containing the word `phase` still classify as
serviceable. -/
theorem C5_in_phase_title_only_witness :
    containsL "phase".data (lowerStr (joinSpace ["in phase next week"])).data = true ∧
    deriveStatusTag ⟨"S5", "S5 - OK", "", "", ["in phase next week"]⟩ = "serviceable" :=
  ⟨by rfl,
   C5_in_phase_title_only ⟨"S5", "S5 - OK", "", "", ["in phase next week"]⟩
     (by rfl) (by rfl) (by rfl) (by rfl)⟩

/-- C6: the Report Parser scenario: one entry keyed `S2`, title `"S2 - GR"`,
input `"080825/2200"`, notes `["Defect: leak", "sub-item"]` in order, tag
`"rectification"`. -/
theorem C6_report_scenario :
    parseReport "S2 - GR\nInput: 080825/2200\n- Defect: leak\n> sub-item" =
      [("S2", { code := "S2", title := "S2 - GR", input := "080825/2200",
                etr := "", notes := ["Defect: leak", "sub-item"],
                tag := "rectification" })] := by
  rfl

/-- C7: the Handover Parser scenario: a red-square-marked "Outstanding"
header, then `"F2 (MC)"`, then `"- check wiring"` yields
`outstanding["F2"] = {tag := "MC", items := ["check wiring"]}` with the
completed map and all twelve extra sections empty. -/
theorem C7_hoto_scenario :
    parseHOTO (String.mk redSq ++ " Outstanding\nF2 (MC)\n- check wiring") =
      { completed := [],
        outstanding := [("F2", { tag := "MC", items := ["check wiring"] })],
        extra := ⟨[], [], [], [], [], [], [], [], [], [], [], []⟩ } := by
  rfl

/-- C8 (counterexample): on the empty string `parseRTSDaily` returns the
placeholder label (the source's `"‚Äî"` em-dash mojibake), not an empty
string, so the output is not "empty strings" throughout. -/
theorem C8_counterexample :
    (parseRTSDaily 2025 "").dateLabel = emDashLabel ∧
    (parseRTSDaily 2025 "").dateLabel ≠ "" := by
  refine ⟨rfl, by decide⟩

/-- C8 (amended): every parser applied to the empty string returns its
empty/default-shaped value — empty mappings, empty lists, null optional
date — except that `parseRTSDaily`'s `dateLabel` is the fixed placeholder
`"‚Äî"` rather than an empty string; all parsers are total functions, so no
exception is possible. -/
theorem C8_empty_input_defaults :
    parseReport "" = [] ∧
    parseTelegramDefects "" = [] ∧
    parseHOTO "" = { completed := [], outstanding := [],
                     extra := ⟨[], [], [], [], [], [], [], [], [], [], [], []⟩ } ∧
    (∀ y : Nat, parseRTSDaily y "" =
      { dateISO := none, dateLabel := emDashLabel, missions := [], spares := [],
        healing := [], hot := [], cold := [], ops := [], notes := [] }) ∧
    (∀ y : Nat, parseRTSWeek y "" = []) := by
  refine ⟨rfl, rfl, rfl, fun y => rfl, fun y => rfl⟩

/-- C9: `idToCode` is total: 251–259 ↦ `F` + the single digit `id-250`,
260–269 ↦ `S` + the single digit `id-260`, anything else passes through as
its decimal string; the six named placeholder ids map as specified. -/
theorem C9_idToCode_total (id : Int) :
    (251 ≤ id → id ≤ 259 →
      idToCode id = "F" ++ toString (id - 250) ∧ (toString (id - 250)).length = 1) ∧
    (260 ≤ id → id ≤ 269 →
      idToCode id = "S" ++ toString (id - 260) ∧ (toString (id - 260)).length = 1) ∧
    (¬ (251 ≤ id ∧ id ≤ 259) → ¬ (260 ≤ id ∧ id ≤ 269) → idToCode id = toString id) ∧
    idToCode 252 = "F2" ∧ idToCode 253 = "F3" ∧ idToCode 260 = "S0" ∧
    idToCode 261 = "S1" ∧ idToCode 265 = "S5" ∧ idToCode 266 = "S6" := by
  refine ⟨?_, ?_, ?_, by rfl, by rfl, by rfl, by rfl, by rfl, by rfl⟩
  · intro h1 h2
    constructor
    · unfold idToCode
      rw [if_pos ⟨h1, h2⟩]
    · have h : id = 251 ∨ id = 252 ∨ id = 253 ∨ id = 254 ∨ id = 255 ∨
          id = 256 ∨ id = 257 ∨ id = 258 ∨ id = 259 := by omega
      rcases h with h | h | h | h | h | h | h | h | h <;> subst h <;> rfl
  · intro h1 h2
    constructor
    · unfold idToCode
      rw [if_neg (by omega), if_pos ⟨h1, h2⟩]
    · have h : id = 260 ∨ id = 261 ∨ id = 262 ∨ id = 263 ∨ id = 264 ∨
          id = 265 ∨ id = 266 ∨ id = 267 ∨ id = 268 ∨ id = 269 := by omega
      rcases h with h | h | h | h | h | h | h | h | h | h <;> subst h <;> rfl
  · intro h1 h2
    unfold idToCode
    rw [if_neg h1, if_neg h2]

/-- C9 witness: the theorem applied at 252 (F range) and 300 (pass-through). -/
theorem C9_idToCode_total_witness :
    idToCode 252 = "F" ++ toString ((252 : Int) - 250) ∧
    idToCode 300 = toString (300 : Int) :=
  ⟨((C9_idToCode_total 252).1 (by decide) (by decide)).1,
   (C9_idToCode_total 300).2.2.1 (by decide) (by decide)⟩

/-- C10: in `parseReport` the header test precedes the bullet-note test:
every line that begins with `-` but matches the header shape starts a fresh
entry for its code (notes reset, any previous entry for that code
discarded) and is never appended to the current entry's notes — and such
lines exist: `"- S2 - found leak"` matches the header pattern with code
`S2` and tail `"found leak"`. -/
theorem C10_header_test_precedes_bullet :
    (∀ (st : RState) (line : String) (c t : String),
       line.data.head? = some '-' →
       headerMatch line.data = some (c, t) →
       reportStep st line =
         { entries := insertAssoc st.entries c
             { code := c, title := c ++ " - " ++ t, input := "", etr := "", notes := [] },
           current := some c }) ∧
    headerMatch ("- S2 - found leak").data = some ("S2", "found leak") := by
  constructor
  · intro st line c t hd hm
    have hne : line.data ≠ [] := by
      intro h
      rw [h] at hd
      simp at hd
    unfold reportStep
    rw [if_neg hne, hm]
  · rfl

/-- C10 witness: the theorem applied to a state already holding an `S2`
entry with notes; the bullet-led header line replaces the entry outright and
appends nothing to any notes list. -/
theorem C10_header_test_precedes_bullet_witness :
    reportStep ⟨[("S2", ⟨"S2", "S2 - old", "", "", ["old note"]⟩)], some "S2"⟩
        "- S2 - found leak" =
      ⟨[("S2", ⟨"S2", "S2 - found leak", "", "", []⟩)], some "S2"⟩ :=
  (C10_header_test_precedes_bullet.1
    ⟨[("S2", ⟨"S2", "S2 - old", "", "", ["old note"]⟩)], some "S2"⟩
    "- S2 - found leak" "S2" "found leak" rfl rfl).trans (by rfl)

end NightReport
